import Mathlib

/-!
Verification development for the `zod-schema` write interceptor
(`src/extendWithSchema.js`, `src/extendWithUser.js`).

The JavaScript values, the zod schema descriptors used by the package, and
the intercepted collection write methods are embedded shallowly below.  Pure
JS functions become Lean functions; a thrown `ValidationError` or `ZodError`
becomes an `Except` error value; a raw JS `TypeError` becomes a dedicated
error constructor.  Issue messages produced by the zod engine are abbreviated
to a stable text per issue code; messages built by the package itself are
reproduced verbatim.
-/

/-- A single validation issue as surfaced to callers by `ValidationError`:
`name` is the dotted field path, `type` the issue-kind tag. -/
structure VIssue where
  name : String
  type : String
  message : String
deriving Repr, DecidableEq

/-- An issue as raised by the zod engine (`ZodError.issues`): a path of keys,
an issue code and a message. -/
structure ZIssue where
  path : List String
  code : String
  message : String
deriving Repr, DecidableEq

/-- Zod schema descriptors, restricted to the constructors the package
manipulates: primitives, literals, objects, arrays, optional and nullable
wrappers, unions and records. -/
inductive Zod where
  | zstring : Zod
  | zstrLen : Nat → Zod
  | znumber : Zod
  | zint : Zod
  | zboolean : Zod
  | zdate : Zod
  | zlit : Int → Zod
  | zobject : List (String × Zod) → Zod
  | zarray : Zod → Zod
  | zoptional : Zod → Zod
  | znullable : Zod → Zod
  | zunion : List Zod → Zod
  | zrecord : Zod → Zod
deriving Repr

/-- JavaScript runtime values (documents, modifiers, operands).  `vnull`
stands for both `null` and `undefined` where the distinction is not
observable; absence of an object key models `undefined` elsewhere. -/
inductive JsVal where
  | vnull : JsVal
  | vbool : Bool → JsVal
  | vnum : Int → JsVal
  | vstr : String → JsVal
  | vdate : Int → JsVal
  | varr : List JsVal → JsVal
  | vobj : List (String × JsVal) → JsVal
deriving Repr

/-- JS truthiness for the values of the model. -/
def truthy : JsVal → Bool
  | JsVal.vnull => false
  | JsVal.vbool b => b
  | JsVal.vnum n => n != 0
  | JsVal.vstr s => s != ""
  | JsVal.vdate _ => true
  | JsVal.varr _ => true
  | JsVal.vobj _ => true

/-- Truthiness of a possibly-absent value (`undefined` is falsy). -/
def truthyO : Option JsVal → Bool
  | none => false
  | some v => truthy v

/-- First-match lookup in an association list (JS object key lookup). -/
def lookupKv : List (String × JsVal) → String → Option JsVal
  | [], _ => none
  | (k2, v) :: rest, k => if k2 == k then some v else lookupKv rest k

/-- JS property read `o[k]`: `undefined` (`none`) on primitives and on
missing keys. -/
def getKey : JsVal → String → Option JsVal
  | JsVal.vobj kvs, k => lookupKv kvs k
  | _, _ => none

/-- JS property write on an object: overwrite in place keeping key order, or
append a new key. -/
def setKv : List (String × JsVal) → String → JsVal → List (String × JsVal)
  | [], k, v => [(k, v)]
  | (k2, v2) :: rest, k, v =>
    if k2 == k then (k, v) :: rest else (k2, v2) :: setKv rest k v

/-- JS `delete o[k]`: remove the first binding of the key. -/
def delKv : List (String × JsVal) → String → List (String × JsVal)
  | [], _ => []
  | (k2, v2) :: rest, k => if k2 == k then rest else (k2, v2) :: delKv rest k

/-- JS assignment `m[k] = v` on a value: on objects writes the key; on
primitives the write is not observable in this model. -/
def setKeyV (m : JsVal) (k : String) (v : JsVal) : JsVal :=
  match m with
  | JsVal.vobj kvs => JsVal.vobj (setKv kvs k v)
  | t => t

/-- `Object.keys`: a `TypeError` on `null`/`undefined`, own enumerable keys
on objects, index strings on arrays and strings, empty otherwise. -/
def jsObjectKeys : JsVal → Except Unit (List String)
  | JsVal.vnull => Except.error ()
  | JsVal.vobj kvs => Except.ok (kvs.map Prod.fst)
  | JsVal.varr xs => Except.ok ((List.range xs.length).map toString)
  | JsVal.vstr s => Except.ok ((List.range s.length).map toString)
  | _ => Except.ok []

/-- `Object.values`: a `TypeError` on `null`/`undefined`, own enumerable
values on objects and arrays, characters on strings, empty otherwise. -/
def jsObjectValues : JsVal → Except Unit (List JsVal)
  | JsVal.vnull => Except.error ()
  | JsVal.vobj kvs => Except.ok (kvs.map Prod.snd)
  | JsVal.varr xs => Except.ok xs
  | JsVal.vstr s => Except.ok (s.toList.map (fun c => JsVal.vstr (String.mk [c])))
  | _ => Except.ok []

/-- Whether a descriptor accepts an absent (`undefined`) object field, as the
zod object parser decides requiredness. -/
def acceptsMissing : Zod → Bool
  | Zod.zoptional _ => true
  | _ => false

/-- Prepend a key to the path of every issue in a list (zod path bookkeeping
when descending into an object field, array index or record entry). -/
def pathCons (k : String) (is : List ZIssue) : List ZIssue :=
  is.map (fun i => { i with path := k :: i.path })

/-- The dot character used by path splitting. -/
def dotChar : Char := Char.ofNat 46

/-- Character-level worker for `split(".")`. -/
def splitDotAux : List Char → List Char → List String
  | [], acc => [String.mk acc.reverse]
  | c :: rest, acc =>
    if c = dotChar then String.mk acc.reverse :: splitDotAux rest []
    else splitDotAux rest (c :: acc)

/-- JS `s.split(".")`. -/
def splitOnDot (s : String) : List String :=
  splitDotAux s.data []

/-- JS `s.includes(".")`. -/
def hasDot (s : String) : Bool :=
  s.data.contains dotChar

mutual

/-- The zod engine's `parse`, embedded: returns the parsed (stripped) value
or the list of issues collected during the run.  Objects strip unknown keys
and collect the issues of every declared field; arrays collect the issues of
every element; unions return the first structurally matching candidate. -/
def parseZ : Zod → JsVal → Except (List ZIssue) JsVal
  | Zod.zstring, v =>
    match v with
    | JsVal.vstr s => Except.ok (JsVal.vstr s)
    | _ => Except.error [⟨[], "invalid_type", "Expected string"⟩]
  | Zod.zstrLen len, v =>
    match v with
    | JsVal.vstr s =>
      if s.length == len then Except.ok (JsVal.vstr s)
      else if s.length < len then
        Except.error [⟨[], "too_small", "String must contain exactly the declared characters"⟩]
      else
        Except.error [⟨[], "too_big", "String must contain exactly the declared characters"⟩]
    | _ => Except.error [⟨[], "invalid_type", "Expected string"⟩]
  | Zod.znumber, v =>
    match v with
    | JsVal.vnum n => Except.ok (JsVal.vnum n)
    | _ => Except.error [⟨[], "invalid_type", "Expected number"⟩]
  | Zod.zint, v =>
    match v with
    | JsVal.vnum n => Except.ok (JsVal.vnum n)
    | _ => Except.error [⟨[], "invalid_type", "Expected number"⟩]
  | Zod.zboolean, v =>
    match v with
    | JsVal.vbool b => Except.ok (JsVal.vbool b)
    | _ => Except.error [⟨[], "invalid_type", "Expected boolean"⟩]
  | Zod.zdate, v =>
    match v with
    | JsVal.vdate t => Except.ok (JsVal.vdate t)
    | _ => Except.error [⟨[], "invalid_type", "Expected date"⟩]
  | Zod.zlit n, v =>
    match v with
    | JsVal.vnum m =>
      if m == n then Except.ok (JsVal.vnum m)
      else Except.error [⟨[], "invalid_literal", "Invalid literal value"⟩]
    | _ => Except.error [⟨[], "invalid_literal", "Invalid literal value"⟩]
  | Zod.zobject fs, v =>
    match v with
    | JsVal.vobj kvs =>
      let r := parseFields fs kvs
      if r.1.isEmpty then Except.ok (JsVal.vobj r.2) else Except.error r.1
    | _ => Except.error [⟨[], "invalid_type", "Expected object"⟩]
  | Zod.zarray e, v =>
    match v with
    | JsVal.varr xs =>
      let r := parseElems e xs 0
      if r.1.isEmpty then Except.ok (JsVal.varr r.2) else Except.error r.1
    | _ => Except.error [⟨[], "invalid_type", "Expected array"⟩]
  | Zod.zoptional inner, v => parseZ inner v
  | Zod.znullable inner, v =>
    match v with
    | JsVal.vnull => Except.ok JsVal.vnull
    | w => parseZ inner w
  | Zod.zunion alts, v => parseUnion alts v
  | Zod.zrecord val, v =>
    match v with
    | JsVal.vobj kvs =>
      let r := parseRecVals val kvs
      if r.1.isEmpty then Except.ok (JsVal.vobj r.2) else Except.error r.1
    | _ => Except.error [⟨[], "invalid_type", "Expected object"⟩]
termination_by s _ => (sizeOf s, 0)
decreasing_by all_goals (simp_wf; omega)

/-- Zod object field traversal: walk the declared fields in order, parse the
present ones, require the non-optional missing ones, drop unknown keys.
Returns the collected issues and the output fields. -/
def parseFields : List (String × Zod) → List (String × JsVal) →
    (List ZIssue × List (String × JsVal))
  | [], _ => ([], [])
  | (k, sch) :: rest, kvs =>
    let tail := parseFields rest kvs
    match lookupKv kvs k with
    | some v =>
      match parseZ sch v with
      | Except.ok v2 => (tail.1, (k, v2) :: tail.2)
      | Except.error es => (pathCons k es ++ tail.1, tail.2)
    | none =>
      if acceptsMissing sch then tail
      else (⟨[k], "invalid_type", "Required"⟩ :: tail.1, tail.2)
termination_by fs _ => (sizeOf fs, 0)
decreasing_by all_goals (simp_wf; omega)

/-- Zod array traversal: parse every element, indexing issue paths. -/
def parseElems : Zod → List JsVal → Nat → (List ZIssue × List JsVal)
  | _, [], _ => ([], [])
  | e, x :: xs, i =>
    let tail := parseElems e xs (i + 1)
    match parseZ e x with
    | Except.ok v2 => (tail.1, v2 :: tail.2)
    | Except.error es => (pathCons (toString i) es ++ tail.1, tail.2)
termination_by e xs _ => (sizeOf e, xs.length)
decreasing_by all_goals (simp_wf; omega)

/-- Zod union: first candidate that parses wins; otherwise a single
`invalid_union` issue. -/
def parseUnion : List Zod → JsVal → Except (List ZIssue) JsVal
  | [], _ => Except.error [⟨[], "invalid_union", "Invalid input"⟩]
  | a :: rest, v =>
    match parseZ a v with
    | Except.ok v2 => Except.ok v2
    | Except.error _ => parseUnion rest v
termination_by alts _ => (sizeOf alts, 0)
decreasing_by all_goals (simp_wf; omega)

/-- Zod record traversal: parse every value against the value schema. -/
def parseRecVals : Zod → List (String × JsVal) → (List ZIssue × List (String × JsVal))
  | _, [] => ([], [])
  | val, (k, v) :: rest =>
    let tail := parseRecVals val rest
    match parseZ val v with
    | Except.ok v2 => (tail.1, (k, v2) :: tail.2)
    | Except.error es => (pathCons k es ++ tail.1, tail.2)
termination_by val kvs => (sizeOf val, kvs.length)
decreasing_by all_goals (simp_wf; omega)

end

/-- First-match lookup in a zod object shape (`schema.shape[segment]`). -/
def lookupZ : List (String × Zod) → String → Option Zod
  | [], _ => none
  | (k2, s) :: rest, k => if k2 == k then some s else lookupZ rest k

/-- The segment walk of `schemaFromPath`: the current descriptor is `none`
when the JS traversal holds `undefined`.  An object descends into the named
field; an optional wrapper is unwrapped and its content is indexed as an
object shape, which is a JS `TypeError` (`Except.error`) when the content is
not an object; anything else ends the walk with not-found.  A trailing
optional wrapper is unwrapped once. -/
def walkPath : Option Zod → List String → Except Unit (Option Zod)
  | cur, [] =>
    match cur with
    | some (Zod.zoptional inner) => Except.ok (some inner)
    | c => Except.ok c
  | cur, seg :: rest =>
    match cur with
    | some (Zod.zobject fs) => walkPath (lookupZ fs seg) rest
    | some (Zod.zoptional (Zod.zobject fs)) => walkPath (lookupZ fs seg) rest
    | some (Zod.zoptional _) => Except.error ()
    | _ => Except.ok none

/-- `schemaFromPath(schema, path)`: split the dotted path and walk the schema
tree.  `Except.ok none` is the not-found result (`undefined`). -/
def schemaFromPath (schema : Zod) (path : String) : Except Unit (Option Zod) :=
  walkPath (some schema) (splitOnDot path)

/-- `schema.partial()`: every top-level field of an object schema becomes
optional; zod defines it only for object schemas, other descriptors are
returned unchanged here (never reached by the pipeline). -/
def shallowOptional : Zod → Zod
  | Zod.zobject fs => Zod.zobject (fs.map (fun kv => (kv.1, Zod.zoptional kv.2)))
  | s => s

mutual

/-- `schema.deepPartial()` (zod's `deepPartialify`): object fields become
optional recursively; arrays, optional and nullable wrappers are traversed;
other descriptors are unchanged. -/
def deepOptional : Zod → Zod
  | Zod.zobject fs => Zod.zobject (deepOptionalFields fs)
  | Zod.zarray e => Zod.zarray (deepOptional e)
  | Zod.zoptional i => Zod.zoptional (deepOptional i)
  | Zod.znullable i => Zod.znullable (deepOptional i)
  | s => s
termination_by s => sizeOf s
decreasing_by all_goals (simp_wf; try omega)

/-- Field map of `deepPartialify` over an object shape. -/
def deepOptionalFields : List (String × Zod) → List (String × Zod)
  | [] => []
  | (k, s) :: rest => (k, Zod.zoptional (deepOptional s)) :: deepOptionalFields rest
termination_by fs => sizeOf fs
decreasing_by all_goals (simp_wf; try omega)

end

/-- In-place update of a zod object shape (`{...shape, ...extension}` key
semantics: overwritten keys keep their position, new keys are appended). -/
def setZ : List (String × Zod) → String → Zod → List (String × Zod)
  | [], k, s => [(k, s)]
  | (k2, s2) :: rest, k, s =>
    if k2 == k then (k, s) :: rest else (k2, s2) :: setZ rest k s

/-- `schema.extend(fields)` on an object shape. -/
def extendFields (fs ext : List (String × Zod)) : List (String × Zod) :=
  ext.foldl (fun acc kv => setZ acc kv.1 kv.2) fs

/-- The collection state touched by the package: name, bound schema and the
behavior flags the declaration methods set. -/
structure Collection where
  name : String
  schema : Option Zod
  withUser : Bool
  withDates : Bool
deriving Repr

/-- Ambient call context: the current user id (`none` when `Meteor.userId()`
is null or throws) and the current time for date stamping. -/
structure Ctx where
  userId : Option String
  now : Int

/-- `withSchema(schema)`: bind the schema. -/
def withSchemaC (c : Collection) (s : Zod) : Collection :=
  { c with schema := some s }

/-- The synthetic field added by `withUser` (`userId: z.string().length(17)`). -/
def userExt : List (String × Zod) := [("userId", Zod.zstrLen 17)]

/-- The synthetic fields added by `withDates`. -/
def datesExt : List (String × Zod) := [("createdAt", Zod.zdate), ("updatedAt", Zod.zdate)]

/-- `withUser()`: set the flag and extend the bound schema with `userId`.
With no bound schema (or a non-object one) `this._schema.extend` is a JS
`TypeError`, modelled as the error result. -/
def withUserC (c : Collection) : Except Unit Collection :=
  match c.schema with
  | some (Zod.zobject fs) =>
    Except.ok { c with withUser := true,
                       schema := some (Zod.zobject (extendFields fs userExt)) }
  | _ => Except.error ()

/-- `withDates()`: set the flag and extend the bound schema with
`createdAt`/`updatedAt`; a `TypeError` without a bound object schema. -/
def withDatesC (c : Collection) : Except Unit Collection :=
  match c.schema with
  | some (Zod.zobject fs) =>
    Except.ok { c with withDates := true,
                       schema := some (Zod.zobject (extendFields fs datesExt)) }
  | _ => Except.error ()

/-- Errors flowing through the write pipeline: a `ZodError` (mapped in the
catch block), a `ValidationError` thrown directly by the package, or a raw JS
`TypeError` (which propagates unwrapped). -/
inductive PipeErr where
  | zodErr : List ZIssue → PipeErr
  | valErr : List VIssue → PipeErr
  | tyErr : PipeErr
deriving Repr

/-- `[...path, ...keys].join(".")`. -/
def joinDots : List String → String
  | [] => ""
  | [k] => k
  | k :: rest => k ++ "." ++ joinDots rest

/-- The catch-block mapping of `ZodError.issues` into `ValidationError`
details: the path keys joined with dots become `name`, the code becomes
`type`. -/
def toVIssues (is : List ZIssue) : List VIssue :=
  is.map (fun i => ⟨joinDots i.path, i.code, i.message⟩)

/-- Observable outcome of one intercepted write call: delegate to the
underlying method with the (possibly rewritten) arguments, abort with a
`ValidationError`, or crash with a raw JS error. -/
inductive Outcome where
  | forwarded : List JsVal → Outcome
  | validationError : List VIssue → Outcome
  | jsError : Outcome
deriving Repr

/-- Outcome of a pipeline error after the catch block. -/
def pipeErrOutcome : PipeErr → Outcome
  | PipeErr.zodErr is => Outcome.validationError (toVIssues is)
  | PipeErr.valErr is => Outcome.validationError is
  | PipeErr.tyErr => Outcome.jsError

/-- `validateNestedFields(object, schema)`: walk the dotted keys of the
operand in order, resolve each against the schema, skip unresolved paths,
`safeParse` the operand value for resolved ones, collecting valid values and
per-field issues (`name` is the whole dotted key). -/
def validateNested (schema : Zod) (operand : JsVal) :
    Except PipeErr (List (String × JsVal) × List VIssue) := do
  let keys ← (jsObjectKeys operand).mapError (fun _ => PipeErr.tyErr)
  let nested := keys.filter (fun k => hasDot k)
  nested.foldlM (fun acc field => do
    match ← (schemaFromPath schema field).mapError (fun _ => PipeErr.tyErr) with
    | none => pure acc
    | some nsch =>
      match parseZ nsch ((getKey operand field).getD JsVal.vnull) with
      | Except.ok d => pure (acc.1 ++ [(field, d)], acc.2)
      | Except.error es =>
        pure (acc.1, acc.2 ++ es.map (fun e => ⟨field, e.code, e.message⟩)))
    (([], []) : List (String × JsVal) × List VIssue)

/-- `Object.assign(newValue, validNestedFields)`. -/
def jsAssign (target : JsVal) (ext : List (String × JsVal)) : JsVal :=
  match target with
  | JsVal.vobj kvs => JsVal.vobj (ext.foldl (fun acc kv => setKv acc kv.1 kv.2) kvs)
  | t => t

/-- The general per-operator branch: parse the whole operand against the
mode-derived schema, then validate the dotted nested fields against the
original schema, raising a `ValidationError` when any nested issue was
collected, otherwise merging the validated nested values into the parsed
operand. -/
def processGeneralOp (schema schemaToCheck : Zod) (operand : JsVal) :
    Except PipeErr JsVal := do
  let newValue ← (parseZ schemaToCheck operand).mapError PipeErr.zodErr
  let vn ← validateNested schema operand
  if vn.2.isEmpty then
    pure (jsAssign newValue vn.1)
  else
    Except.error (PipeErr.valErr vn.2)

/-- The composite shape built for a `$push`/`$addToSet` operand carrying
`$each`: the `$each` value is checked against the resolved array schema,
`$position` and `$slice` against optional integers, `$sort` against
`1`/`-1` or a field-direction record. -/
def pushComposite (fieldSchema : Zod) : Zod :=
  Zod.zobject
    [("$each", fieldSchema),
     ("$position", Zod.zoptional Zod.zint),
     ("$slice", Zod.zoptional Zod.zint),
     ("$sort", Zod.zoptional (Zod.zunion
        [Zod.zrecord (Zod.zunion [Zod.zlit 1, Zod.zlit (-1)]),
         Zod.zlit 1, Zod.zlit (-1)]))]

/-- One targeted field of a `$push`/`$addToSet` operand: resolve the field
(`invalid_field` when unresolved, `invalid_array_field` when not an array),
then parse the operand either against the composite `$each` shape (when its
`$each` member is truthy) or against the element schema, returning the
rewritten field value. -/
def processArrayField (schema : Zod) (operand : JsVal) (field : String) :
    Except PipeErr JsVal := do
  let fieldSchema ← (schemaFromPath schema field).mapError (fun _ => PipeErr.tyErr)
  match fieldSchema with
  | none =>
    Except.error (PipeErr.valErr [⟨field, "invalid_field", field ++ " does not exist"⟩])
  | some fs =>
    match fs with
    | Zod.zarray elemSchema =>
      let v := (getKey operand field).getD JsVal.vnull
      if truthyO (getKey v "$each") then
        (parseZ (pushComposite (Zod.zarray elemSchema)) v).mapError PipeErr.zodErr
      else
        (parseZ elemSchema v).mapError PipeErr.zodErr
    | _ =>
      Except.error (PipeErr.valErr
        [⟨field, "invalid_array_field", field ++ " is not a valid array"⟩])

/-- One targeted field of a `$pop` operand: resolve the field, require an
array, then require the operand value to be exactly `1` or `-1`; the issue
raised otherwise carries the operator key as its `name`. -/
def processPopField (schema : Zod) (opKey : String) (operand : JsVal) (field : String) :
    Except PipeErr Unit := do
  let fieldSchema ← (schemaFromPath schema field).mapError (fun _ => PipeErr.tyErr)
  match fieldSchema with
  | none =>
    Except.error (PipeErr.valErr [⟨field, "invalid_field", field ++ " does not exist"⟩])
  | some fs =>
    match fs with
    | Zod.zarray _ =>
      match (getKey operand field).getD JsVal.vnull with
      | JsVal.vnum n =>
        if n == 1 || n == -1 then pure ()
        else
          Except.error (PipeErr.valErr
            [⟨opKey, "invalid_array_pop_operation",
              opKey ++ " is not a valid array $pop operation. $pop value must be 1 or -1."⟩])
      | _ =>
        Except.error (PipeErr.valErr
          [⟨opKey, "invalid_array_pop_operation",
            opKey ++ " is not a valid array $pop operation. $pop value must be 1 or -1."⟩])
    | _ =>
      Except.error (PipeErr.valErr
        [⟨field, "invalid_array_field", field ++ " is not a valid array"⟩])

/-- Modelled from the spec: `src/utils/unsupportedOps.js` is not among the
provided sources; the operator list follows the spec's table of explicitly
unsupported operators that are passed through unvalidated. -/
def unsupportedOps : List String :=
  ["$unset", "$inc", "$mul", "$rename", "$min", "$max", "$currentDate",
   "$", "$[]", "$pull", "$pullAll", "$bit"]

/-- Dispatch of one top-level modifier key: `$push`/`$addToSet` validate and
rewrite each targeted field, `$pop` checks each targeted field, unsupported
operators pass through, anything else takes the general branch. -/
def processOp (schema schemaToCheck : Zod) (key : String) (operand : JsVal) :
    Except PipeErr JsVal :=
  if key == "$push" || key == "$addToSet" then do
    let fields ← (jsObjectKeys operand).mapError (fun _ => PipeErr.tyErr)
    fields.foldlM (fun acc field => do
      let v2 ← processArrayField schema acc field
      pure (setKeyV acc field v2)) operand
  else if key == "$pop" then do
    let fields ← (jsObjectKeys operand).mapError (fun _ => PipeErr.tyErr)
    fields.forM (fun field => processPopField schema key operand field)
    pure operand
  else if unsupportedOps.contains key then
    pure operand
  else
    processGeneralOp schema schemaToCheck operand

/-- The per-operator loop of a plain update: visit the modifier keys in
order, each operator rewriting its own operand in place; the first thrown
error aborts the loop. -/
def processKeys (schema schemaToCheck : Zod) : List String → JsVal → Except PipeErr JsVal
  | [], m => Except.ok m
  | k :: rest, m => do
    let v2 ← processOp schema schemaToCheck k ((getKey m k).getD JsVal.vnull)
    processKeys schema schemaToCheck rest (setKeyV m k v2)

/-- Validation of a plain update's modifier document. -/
def processModifier (schema schemaToCheck : Zod) (m : JsVal) : Except PipeErr JsVal := do
  let keys ← (jsObjectKeys m).mapError (fun _ => PipeErr.tyErr)
  processKeys schema schemaToCheck keys m

/-- The upsert-specific branch: a truthy `$set` operand is parsed against the
deep-partial schema and a truthy `$setOnInsert` operand against the partial
schema, each rewritten in place; no other operator is touched.  Reading
`.$set` off a nullish modifier is a JS `TypeError`. -/
def processUpsert (schema : Zod) (m : JsVal) : Except PipeErr JsVal :=
  match m with
  | JsVal.vnull => Except.error PipeErr.tyErr
  | m => do
    let m1 ←
      if truthyO (getKey m "$set") then
        ((parseZ (deepOptional schema) ((getKey m "$set").getD JsVal.vnull)).mapError
          PipeErr.zodErr).map (setKeyV m "$set")
      else pure m
    if truthyO (getKey m1 "$setOnInsert") then
      ((parseZ (shallowOptional schema) ((getKey m1 "$setOnInsert").getD JsVal.vnull)).mapError
        PipeErr.zodErr).map (setKeyV m1 "$setOnInsert")
    else pure m1

/-- The identity-collection credential-subtree test:
`Object.keys(Object.values(modifier)[0])[0].split(".")[0] === "services"`,
with every dereference of `undefined` a JS `TypeError`. -/
def firstKeyIsServices (m : JsVal) : Except Unit Bool := do
  let vals ← jsObjectValues m
  match vals.head? with
  | none => Except.error ()
  | some v => do
    let ks ← jsObjectKeys v
    match ks.head? with
    | none => Except.error ()
    | some k => Except.ok (((splitOnDot k).headD "") == "services")

/-- A truthy value or a fresh empty object (`x || {}`). -/
def orEmptyObj (v : Option JsVal) : JsVal :=
  match v with
  | some w => if truthy w then w else JsVal.vobj []
  | none => JsVal.vobj []

/-- `extendWithUser(args, {isUpsert, isUpdate})` from `src/extendWithUser.js`:
skipped without an ambient user id; an upsert stamps
`$setOnInsert.userId`, an update strips a client-supplied `$set.userId`, an
insert stamps `userId` on the document. -/
def stampUser (ctx : Ctx) (args : List JsVal) (isUpsert isUpdate : Bool) : List JsVal :=
  match ctx.userId with
  | none => args
  | some uid =>
    if uid == "" then args
    else if isUpsert then
      let m := (args.get? 1).getD JsVal.vnull
      let soi := orEmptyObj (getKey m "$setOnInsert")
      args.set 1 (setKeyV m "$setOnInsert" (setKeyV soi "userId" (JsVal.vstr uid)))
    else if isUpdate then
      let m := (args.get? 1).getD JsVal.vnull
      match getKey m "$set" with
      | some (JsVal.vobj kvs) => args.set 1 (setKeyV m "$set" (JsVal.vobj (delKv kvs "userId")))
      | _ => args
    else
      let d := (args.get? 0).getD JsVal.vnull
      args.set 0 (setKeyV d "userId" (JsVal.vstr uid))

/-- Modelled from the spec: `src/extendWithDates.js` is not among the
provided sources.  Behavior follows the spec's `stampDates` hook: an insert
sets `createdAt`/`updatedAt` to now, an update sets `$set.updatedAt` and
strips a client-supplied `$set.createdAt`, an upsert sets
`$setOnInsert.createdAt`/`$setOnInsert.updatedAt` and `$set.updatedAt`. -/
def stampDates (ctx : Ctx) (args : List JsVal) (isUpsert isUpdate : Bool) : List JsVal :=
  let now := JsVal.vdate ctx.now
  if isUpsert then
    let m := (args.get? 1).getD JsVal.vnull
    let soi := orEmptyObj (getKey m "$setOnInsert")
    let m1 := setKeyV m "$setOnInsert" (setKeyV (setKeyV soi "createdAt" now) "updatedAt" now)
    let st := orEmptyObj (getKey m1 "$set")
    args.set 1 (setKeyV m1 "$set" (setKeyV st "updatedAt" now))
  else if isUpdate then
    let m := (args.get? 1).getD JsVal.vnull
    let st := orEmptyObj (getKey m "$set")
    let st1 :=
      match setKeyV st "updatedAt" now with
      | JsVal.vobj kvs => JsVal.vobj (delKv kvs "createdAt")
      | t => t
    args.set 1 (setKeyV m "$set" st1)
  else
    let d := (args.get? 0).getD JsVal.vnull
    args.set 0 (setKeyV (setKeyV d "createdAt" now) "updatedAt" now)

/-- The wrapped write method installed over
`insertAsync`/`updateAsync`/`upsertAsync`: read the options off the last
positional argument; bypass on a truthy `skipSchema` or a missing schema;
compute the upsert flag from the third argument; bypass (or crash) on the
identity-collection credential-subtree test and on the upsert method names;
run the stamping hooks; then validate and rewrite through the branch the
operation kind selects, forwarding the rewritten arguments only when no
issue was raised. -/
def interceptWrite (ctx : Ctx) (methodName : String) (col : Collection)
    (args : List JsVal) : Outcome :=
  let options := args.getLast?
  if truthyO (options.bind (fun o => getKey o "skipSchema")) then Outcome.forwarded args
  else
    match col.schema with
    | none => Outcome.forwarded args
    | some schema =>
      let isUpdate := methodName == "update" || methodName == "updateAsync"
      let isUpsert := isUpdate &&
        (match args.get? 2 with
         | some (JsVal.vobj kvs) =>
           (lookupKv kvs "upsert").isSome && truthyO (lookupKv kvs "upsert")
         | _ => false)
      let usersCheck : Except Unit Bool :=
        if isUpdate && (col.name == "users") then
          match args.get? 1 with
          | none => Except.error ()
          | some m => firstKeyIsServices m
        else Except.ok false
      match usersCheck with
      | Except.error _ => Outcome.jsError
      | Except.ok isUserServicesUpdate =>
        if isUserServicesUpdate || methodName == "upsert" || methodName == "upsertAsync" then
          Outcome.forwarded args
        else
          let args1 := if col.withDates then stampDates ctx args isUpsert isUpdate else args
          let args2 := if col.withUser then stampUser ctx args1 isUpsert isUpdate else args1
          let schemaToCheck := if isUpdate then deepOptional schema else schema
          let result : Except PipeErr (List JsVal) :=
            if isUpsert then
              (processUpsert schema ((args2.get? 1).getD JsVal.vnull)).map (args2.set 1 ·)
            else if isUpdate then
              (processModifier schema schemaToCheck ((args2.get? 1).getD JsVal.vnull)).map
                (args2.set 1 ·)
            else
              ((parseZ schemaToCheck ((args2.get? 0).getD JsVal.vnull)).mapError
                PipeErr.zodErr).map (args2.set 0 ·)
          match result with
          | Except.ok newArgs => Outcome.forwarded newArgs
          | Except.error e => pipeErrOutcome e

/-- Modelled from the spec: the store's upsert primitive is outside the
provided sources; per the spec's external interface an upsert is expressed
as an update carrying the upsert option, so the delegated original upsert
method re-enters the collection's (wrapped) update method with the options
extended by `_returnObject` and `upsert: true`. -/
def runUpsert (ctx : Ctx) (col : Collection) (args : List JsVal) : Outcome :=
  match interceptWrite ctx "upsertAsync" col args with
  | Outcome.forwarded args2 =>
    let sel := (args2.get? 0).getD JsVal.vnull
    let m := (args2.get? 1).getD JsVal.vnull
    let baseOpts :=
      match args2.get? 2 with
      | some (JsVal.vobj kvs) => kvs
      | _ => []
    let opts := JsVal.vobj
      (setKv (setKv baseOpts "_returnObject" (JsVal.vbool true)) "upsert" (JsVal.vbool true))
    interceptWrite ctx "updateAsync" col [sel, m, opts]
  | o => o

/-- The path-resolution algorithm exactly as the specification words it, for
comparison with `schemaFromPath`: descend through object fields, unwrap
optional and nullable wrappers before descending, descend into the element
descriptor when the descriptor is array-like and the segment is numeric,
otherwise not-found; unwrap a trailing optional before returning.
`stripWrap` is the "unwrap first" step. -/
def stripWrap : Zod → Zod
  | Zod.zoptional i => stripWrap i
  | Zod.znullable i => stripWrap i
  | s => s

/-- Whether a path segment is numeric (an array-index segment). -/
def isNumericSeg (seg : String) : Bool :=
  !seg.data.isEmpty && seg.data.all Char.isDigit

/-- Per-segment walk of the specification's resolver. -/
def resolveSpecSeg : Zod → List String → Option Zod
  | s, [] =>
    match s with
    | Zod.zoptional i => some i
    | s => some s
  | s, seg :: rest =>
    match stripWrap s with
    | Zod.zobject fs =>
      match lookupZ fs seg with
      | some s2 => resolveSpecSeg s2 rest
      | none => none
    | Zod.zarray e =>
      if isNumericSeg seg then resolveSpecSeg e rest else none
    | _ => none

/-- The specification's resolver on a dotted path. -/
def resolveSpec (s : Zod) (path : String) : Option Zod :=
  resolveSpecSeg s (splitOnDot path)

/-- The upsert write policy exactly as the claim words it, for comparison
with the pipeline: a truthy `$set` operand is validated against the
deep-partial schema variant and a truthy `$setOnInsert` operand against the
partial variant (in that order, each rewritten in place); a violating
operand surfaces as the mapped aggregated issues and nothing is forwarded;
otherwise the rewritten modifier is forwarded with the given options. -/
def upsertDualSpec (s : Zod) (sel m opts : JsVal) : Outcome :=
  match (if truthyO (getKey m "$set") then
      (parseZ (deepOptional s) ((getKey m "$set").getD JsVal.vnull)).map some
    else Except.ok none) with
  | Except.error is => Outcome.validationError (toVIssues is)
  | Except.ok o1 =>
    let m1 := match o1 with
      | some v1 => setKeyV m "$set" v1
      | none => m
    match (if truthyO (getKey m1 "$setOnInsert") then
        (parseZ (shallowOptional s) ((getKey m1 "$setOnInsert").getD JsVal.vnull)).map some
      else Except.ok none) with
    | Except.error is => Outcome.validationError (toVIssues is)
    | Except.ok o2 =>
      match o2 with
      | some v2 => Outcome.forwarded [sel, setKeyV m1 "$setOnInsert" v2, opts]
      | none => Outcome.forwarded [sel, m1, opts]

/-- Independent per-operator validation, as the error-aggregation claim
must be compared against: each top-level operator key's operand is validated
on its own by the operator dispatch, in key order; the first failing
operator's error is the result and later operators contribute nothing. -/
def opsMapM (s stc : Zod) : List (String × JsVal) → Except PipeErr (List (String × JsVal))
  | [] => Except.ok []
  | kv :: rest =>
    match processOp s stc kv.1 kv.2 with
    | Except.error e => Except.error e
    | Except.ok v2 =>
      match opsMapM s stc rest with
      | Except.error e => Except.error e
      | Except.ok rest2 => Except.ok ((kv.1, v2) :: rest2)

lemma lookupKv_not_mem {k : String} {xs : List (String × JsVal)}
    (h : k ∉ xs.map Prod.fst) : lookupKv xs k = none := by
  induction xs with
  | nil => rfl
  | cons p rest ih =>
    simp only [List.map_cons, List.mem_cons] at h
    push_neg at h
    simp only [lookupKv]
    rw [if_neg (by simpa [beq_iff_eq] using Ne.symm h.1)]
    exact ih h.2

lemma lookupKv_append_left_none {k : String} {xs ys : List (String × JsVal)}
    (h : k ∉ xs.map Prod.fst) : lookupKv (xs ++ ys) k = lookupKv ys k := by
  induction xs with
  | nil => rfl
  | cons p rest ih =>
    simp only [List.map_cons, List.mem_cons] at h
    push_neg at h
    simp only [List.cons_append, lookupKv]
    rw [if_neg (by simpa [beq_iff_eq] using Ne.symm h.1)]
    exact ih h.2

lemma lookupKv_append_right_none {k : String} {xs ys : List (String × JsVal)}
    (h : k ∉ ys.map Prod.fst) : lookupKv (xs ++ ys) k = lookupKv xs k := by
  induction xs with
  | nil => simp [lookupKv_not_mem h, lookupKv]
  | cons p rest ih =>
    simp only [List.cons_append, lookupKv]
    by_cases hk : p.1 = k
    · simp [hk]
    · rw [if_neg (by simpa [beq_iff_eq] using hk), if_neg (by simpa [beq_iff_eq] using hk)]
      exact ih

lemma setKv_append_left {k : String} {xs ys : List (String × JsVal)} {v : JsVal}
    (h : k ∉ xs.map Prod.fst) : setKv (xs ++ ys) k v = xs ++ setKv ys k v := by
  induction xs with
  | nil => rfl
  | cons p rest ih =>
    simp only [List.map_cons, List.mem_cons] at h
    push_neg at h
    simp only [List.cons_append, setKv]
    rw [if_neg (by simpa [beq_iff_eq] using Ne.symm h.1)]
    simp [ih h.2]

/-- C3, counterexample: the path resolver does not descend into array
element descriptors on numeric segments (the spec-worded resolver yields the
element descriptor for `tags.0`, the code yields not-found), and it does not
unwrap nullable wrappers (the spec-worded resolver resolves `a.b` through a
nullable object, the code yields not-found). -/
theorem c3_path_resolver_counterexample :
    resolveSpec (Zod.zobject [("tags", Zod.zarray Zod.zstring)]) "tags.0"
      = some Zod.zstring
  ∧ schemaFromPath (Zod.zobject [("tags", Zod.zarray Zod.zstring)]) "tags.0"
      = Except.ok none
  ∧ resolveSpec (Zod.zobject [("a", Zod.znullable (Zod.zobject [("b", Zod.zstring)]))]) "a.b"
      = some Zod.zstring
  ∧ schemaFromPath (Zod.zobject [("a", Zod.znullable (Zod.zobject [("b", Zod.zstring)]))]) "a.b"
      = Except.ok none :=
  ⟨rfl, rfl, rfl, rfl⟩

/-- C3, amended: the resolver splits the path on dots and walks the schema;
an object descriptor descends into the named field; an optional wrapper
whose content is an object is unwrapped and descended; an optional wrapper
around anything else crashes with a JS error; any other descriptor with
segments remaining — arrays (numeric segment or not), nullable wrappers,
primitives, or a missing field — resolves to not-found; one trailing
optional wrapper is unwrapped before returning. -/
theorem c3_path_resolver_amended (d e : Zod) (s : Zod) (fs : List (String × Zod))
    (seg : String) (rest : List String) (p : String) :
    (schemaFromPath s p = walkPath (some s) (splitOnDot p))
  ∧ (walkPath (some (Zod.zobject fs)) (seg :: rest) = walkPath (lookupZ fs seg) rest)
  ∧ (walkPath (some (Zod.zoptional (Zod.zobject fs))) (seg :: rest)
      = walkPath (lookupZ fs seg) rest)
  ∧ (walkPath (some (Zod.zoptional (Zod.zarray e))) (seg :: rest) = Except.error ())
  ∧ (walkPath (some (Zod.zarray e)) (seg :: rest) = Except.ok none)
  ∧ (walkPath (some (Zod.znullable d)) (seg :: rest) = Except.ok none)
  ∧ (walkPath (some Zod.zstring) (seg :: rest) = Except.ok none)
  ∧ (walkPath none (seg :: rest) = Except.ok none)
  ∧ (walkPath (some (Zod.zoptional d)) [] = Except.ok (some d))
  ∧ (walkPath (some (Zod.zobject fs)) [] = Except.ok (some (Zod.zobject fs)))
  ∧ (walkPath none [] = Except.ok none) :=
  ⟨rfl, rfl, rfl, rfl, rfl, rfl, rfl, rfl, rfl, rfl, rfl⟩

/-- C7: a write whose last positional argument carries a truthy `skipSchema`
is forwarded to the underlying method unchanged, bypassing the whole
pipeline for any method, collection and arguments. -/
theorem c7_skip_schema_bypass (ctx : Ctx) (methodName : String) (col : Collection)
    (args : List JsVal)
    (h : truthyO (args.getLast?.bind (fun o => getKey o "skipSchema")) = true) :
    interceptWrite ctx methodName col args = Outcome.forwarded args := by
  unfold interceptWrite
  simp [h]

/-- C7, witness: a schema-violating insert with `skipSchema: true` in its
options is forwarded unchanged. -/
theorem c7_skip_schema_bypass_witness :
    truthyO ((([JsVal.vobj [("name", JsVal.vnum 1)],
        JsVal.vobj [("skipSchema", JsVal.vbool true)]] : List JsVal).getLast?).bind
        (fun o => getKey o "skipSchema")) = true
  ∧ interceptWrite ⟨none, 0⟩ "insertAsync"
      ⟨"c", some (Zod.zobject [("name", Zod.zstring)]), false, false⟩
      [JsVal.vobj [("name", JsVal.vnum 1)], JsVal.vobj [("skipSchema", JsVal.vbool true)]]
    = Outcome.forwarded
      [JsVal.vobj [("name", JsVal.vnum 1)], JsVal.vobj [("skipSchema", JsVal.vbool true)]] :=
  ⟨rfl, c7_skip_schema_bypass ⟨none, 0⟩ "insertAsync"
    ⟨"c", some (Zod.zobject [("name", Zod.zstring)]), false, false⟩
    [JsVal.vobj [("name", JsVal.vnum 1)], JsVal.vobj [("skipSchema", JsVal.vbool true)]] rfl⟩

/-- C9: the options are read from the last positional argument without an
arity check, so an insert called with only a document argument treats the
document itself as the options object: this concrete document violates the
schema (its `name` is a number) yet its own truthy `skipSchema` field makes
the insert forward it to storage unvalidated. -/
theorem c9_insert_options_aliasing :
    interceptWrite ⟨none, 0⟩ "insertAsync"
      ⟨"c", some (Zod.zobject [("name", Zod.zstring)]), false, false⟩
      [JsVal.vobj [("name", JsVal.vnum 1), ("skipSchema", JsVal.vbool true)]]
    = Outcome.forwarded [JsVal.vobj [("name", JsVal.vnum 1), ("skipSchema", JsVal.vbool true)]]
  ∧ parseZ (Zod.zobject [("name", Zod.zstring)])
      (JsVal.vobj [("name", JsVal.vnum 1), ("skipSchema", JsVal.vbool true)])
    = Except.error [⟨["name"], "invalid_type", "Expected string"⟩] := by
  refine ⟨rfl, ?_⟩
  simp [parseZ, parseFields, lookupKv, pathCons, acceptsMissing]

/-- C10: on a schema-bound collection named `users`, an update whose first
operator operand has no keys (`{$set: {}}`) crashes with a raw JS
`TypeError` in the credential-subtree test before any validation, rather
than raising an aggregated validation error or passing through. -/
theorem c10_users_empty_operand_typeerror :
    interceptWrite ⟨none, 0⟩ "updateAsync"
      ⟨"users", some (Zod.zobject [("name", Zod.zstring)]), false, false⟩
      [JsVal.vstr "id", JsVal.vobj [("$set", JsVal.vobj [])]]
    = Outcome.jsError := rfl

lemma parseFields_append_right {fs : List (String × Zod)} {kvs extras : List (String × JsVal)}
    (hx : ∀ k ∈ fs.map Prod.fst, k ∉ extras.map Prod.fst) :
    parseFields fs (kvs ++ extras) = parseFields fs kvs := by
  induction fs with
  | nil => simp [parseFields]
  | cons f rest ih =>
    rcases f with ⟨k, sch⟩
    have hk : k ∉ extras.map Prod.fst := hx k (by simp)
    have hl : lookupKv (kvs ++ extras) k = lookupKv kvs k := lookupKv_append_right_none hk
    have ih2 := ih (fun k2 hk2 => hx k2 (by simp [hk2]))
    simp only [parseFields, hl, ih2]

lemma parseFields_out_keys {fs : List (String × Zod)} {kvs : List (String × JsVal)} :
    ∀ p ∈ (parseFields fs kvs).2, p.1 ∈ fs.map Prod.fst := by
  induction fs with
  | nil => simp [parseFields]
  | cons f rest ih =>
    rcases f with ⟨k, sch⟩
    intro p hp
    rw [parseFields] at hp
    rcases hl : lookupKv kvs k with _ | v
    · rcases ha : acceptsMissing sch with _ | _ <;>
        · simp only [hl, ha, Bool.false_eq_true, if_false, if_true, if_pos] at hp
          exact List.mem_cons_of_mem _ (ih p hp)
    · rcases hz : parseZ sch v with es | v2
      · simp only [hl, hz] at hp
        exact List.mem_cons_of_mem _ (ih p hp)
      · simp only [hl, hz] at hp
        rcases List.mem_cons.mp hp with h | h
        · simp [h]
        · exact List.mem_cons_of_mem _ (ih p h)

lemma interceptWrite_insert (ctx : Ctx) (nm : String) (s : Zod) (doc : JsVal) :
    interceptWrite ctx "insertAsync" ⟨nm, some s, false, false⟩ [doc, JsVal.vobj []]
      = match parseZ s doc with
        | Except.ok d => Outcome.forwarded [d, JsVal.vobj []]
        | Except.error is => Outcome.validationError (toVIssues is) := by
  unfold interceptWrite
  simp only [List.getLast?, List.getLastD, getKey, lookupKv, truthyO, Option.bind]
  cases hz : parseZ s doc <;>
    simp [hz, Except.mapError, Except.map, pipeErrOutcome, truthyO, truthy, lookupKv]

/-- C6: a plain insert validates the whole document against the strict
schema in one pass; undeclared top-level keys are silently stripped — adding
them changes nothing about the call's outcome — and whenever the write is
forwarded, every key of the stored document is a declared field. -/
theorem c6_insert_strips_undeclared (ctx : Ctx) (nm : String) (fs : List (String × Zod))
    (kvs extras : List (String × JsVal))
    (hx : ∀ k ∈ extras.map Prod.fst, k ∉ fs.map Prod.fst) :
    interceptWrite ctx "insertAsync" ⟨nm, some (Zod.zobject fs), false, false⟩
        [JsVal.vobj (kvs ++ extras), JsVal.vobj []]
      = interceptWrite ctx "insertAsync" ⟨nm, some (Zod.zobject fs), false, false⟩
        [JsVal.vobj kvs, JsVal.vobj []]
  ∧ ∀ args2, interceptWrite ctx "insertAsync" ⟨nm, some (Zod.zobject fs), false, false⟩
        [JsVal.vobj (kvs ++ extras), JsVal.vobj []] = Outcome.forwarded args2 →
      ∃ kvs2, args2 = [JsVal.vobj kvs2, JsVal.vobj []]
        ∧ ∀ k ∈ kvs2.map Prod.fst, k ∈ fs.map Prod.fst := by
  have hpf : parseFields fs (kvs ++ extras) = parseFields fs kvs :=
    parseFields_append_right (fun k hk hke => hx k hke hk)
  have hparse : parseZ (Zod.zobject fs) (JsVal.vobj (kvs ++ extras))
      = parseZ (Zod.zobject fs) (JsVal.vobj kvs) := by
    rw [parseZ, parseZ, hpf]
  constructor
  · rw [interceptWrite_insert, interceptWrite_insert, hparse]
  · intro args2 h2
    rw [interceptWrite_insert, hparse] at h2
    rcases hz : parseZ (Zod.zobject fs) (JsVal.vobj kvs) with is | d
    · rw [hz] at h2
      exact absurd h2 (by simp)
    · rw [hz] at h2
      simp only [Outcome.forwarded.injEq] at h2
      have hd : d = JsVal.vobj (parseFields fs kvs).2 := by
        rw [parseZ] at hz
        by_cases he : (parseFields fs kvs).1.isEmpty
        · simp only [he, if_pos] at hz
          exact (Except.ok.injEq _ _).mp hz.symm |>.symm ▸ rfl
        · simp only [he, Bool.false_eq_true, if_false] at hz
          cases hz
      refine ⟨(parseFields fs kvs).2, ?_, ?_⟩
      · rw [← h2, hd]
      · intro k hk
        rcases List.mem_map.mp hk with ⟨p, hp, hpk⟩
        exact hpk ▸ parseFields_out_keys p hp

/-- C6, witness: inserting a document with an undeclared `x` field behaves
exactly like inserting it without, and the forwarded document carries only
declared keys. -/
theorem c6_insert_strips_undeclared_witness :
    (∀ k ∈ ([("x", JsVal.vnum 1)].map Prod.fst),
        k ∉ ([("name", Zod.zstring)].map Prod.fst))
  ∧ interceptWrite ⟨none, 0⟩ "insertAsync"
      ⟨"c", some (Zod.zobject [("name", Zod.zstring)]), false, false⟩
      [JsVal.vobj ([("name", JsVal.vstr "John")] ++ [("x", JsVal.vnum 1)]), JsVal.vobj []]
    = interceptWrite ⟨none, 0⟩ "insertAsync"
      ⟨"c", some (Zod.zobject [("name", Zod.zstring)]), false, false⟩
      [JsVal.vobj [("name", JsVal.vstr "John")], JsVal.vobj []] :=
  ⟨by decide, (c6_insert_strips_undeclared ⟨none, 0⟩ "c" [("name", Zod.zstring)]
    [("name", JsVal.vstr "John")] [("x", JsVal.vnum 1)] (by decide)).1⟩

lemma setZ_idem (fs : List (String × Zod)) (k : String) (s : Zod) :
    setZ (setZ fs k s) k s = setZ fs k s := by
  induction fs with
  | nil => simp [setZ]
  | cons p rest ih =>
    rcases p with ⟨k2, s2⟩
    by_cases h : k2 = k
    · subst h
      simp [setZ]
    · simp [setZ, h, ih]

lemma lookupZ_setZ_self (fs : List (String × Zod)) (k : String) (s : Zod) :
    lookupZ (setZ fs k s) k = some s := by
  induction fs with
  | nil => simp [setZ, lookupZ]
  | cons p rest ih =>
    rcases p with ⟨k2, s2⟩
    simp only [setZ, beq_iff_eq]
    by_cases h : k2 = k
    · rw [if_pos h]
      simp [lookupZ]
    · rw [if_neg h]
      simp only [lookupZ, beq_iff_eq]
      rw [if_neg h]
      exact ih

lemma lookupZ_setZ_ne (fs : List (String × Zod)) {k k2 : String} (s : Zod)
    (h : k2 ≠ k) : lookupZ (setZ fs k2 s) k = lookupZ fs k := by
  induction fs with
  | nil =>
    simp only [setZ, lookupZ, beq_iff_eq]
    rw [if_neg h]
  | cons p rest ih =>
    rcases p with ⟨k3, s3⟩
    simp only [setZ, lookupZ, beq_iff_eq]
    by_cases h3 : k3 = k2
    · rw [if_pos h3]
      subst h3
      simp only [lookupZ, beq_iff_eq]
      rw [if_neg h, if_neg h]
    · rw [if_neg h3]
      simp only [lookupZ, beq_iff_eq]
      by_cases hk : k3 = k
      · rw [if_pos hk, if_pos hk]
      · rw [if_neg hk, if_neg hk]
        exact ih

lemma setZ_lookup_eq (fs : List (String × Zod)) {k : String} {s : Zod}
    (h : lookupZ fs k = some s) : setZ fs k s = fs := by
  induction fs with
  | nil => simp [lookupZ] at h
  | cons p rest ih =>
    rcases p with ⟨k2, s2⟩
    simp only [lookupZ, beq_iff_eq] at h
    simp only [setZ, beq_iff_eq]
    by_cases hk : k2 = k
    · rw [if_pos hk] at h
      rw [if_pos hk]
      subst hk
      injection h with h2
      rw [h2]
    · rw [if_neg hk] at h
      rw [if_neg hk, ih h]

lemma extendFields_user_idem (fs : List (String × Zod)) :
    extendFields (extendFields fs userExt) userExt = extendFields fs userExt := by
  simp only [extendFields, userExt, List.foldl]
  exact setZ_idem fs "userId" (Zod.zstrLen 17)

lemma extendFields_dates_idem (fs : List (String × Zod)) :
    extendFields (extendFields fs datesExt) datesExt = extendFields fs datesExt := by
  simp only [extendFields, datesExt, List.foldl]
  have hne : ("updatedAt" : String) ≠ "createdAt" := by decide
  have hc : lookupZ (setZ (setZ fs "createdAt" Zod.zdate) "updatedAt" Zod.zdate) "createdAt"
      = some Zod.zdate := by
    rw [lookupZ_setZ_ne _ _ hne, lookupZ_setZ_self]
  rw [setZ_lookup_eq _ hc, setZ_lookup_eq _ (lookupZ_setZ_self _ _ _)]

/-- C8: with no bound schema, `withUser`/`withDates` fail (the schema-extend
call has nothing to extend); with a bound object schema they set their flag
and extend the schema with the synthetic fields; and each is idempotent in
effect: re-applying it to its own result returns that result unchanged. -/
theorem c8_enable_methods (c : Collection) :
    (c.schema = none → withUserC c = Except.error () ∧ withDatesC c = Except.error ())
  ∧ (∀ fs, c.schema = some (Zod.zobject fs) →
      withUserC c = Except.ok { c with withUser := true, schema := some (Zod.zobject (extendFields fs userExt)) }
    ∧ withDatesC c = Except.ok { c with withDates := true, schema := some (Zod.zobject (extendFields fs datesExt)) })
  ∧ (∀ c1, withUserC c = Except.ok c1 → withUserC c1 = Except.ok c1)
  ∧ (∀ c1, withDatesC c = Except.ok c1 → withDatesC c1 = Except.ok c1) := by
  refine ⟨fun h => ?_, fun fs h => ?_, fun c1 h => ?_, fun c1 h => ?_⟩
  · rw [withUserC, withDatesC, h]
    exact ⟨rfl, rfl⟩
  · rw [withUserC, withDatesC, h]
    exact ⟨rfl, rfl⟩
  · rcases hs : c.schema with _ | s
    · rw [withUserC, hs] at h
      cases h
    · cases s <;> rw [withUserC, hs] at h <;> cases h
      all_goals (rw [withUserC]; simp [extendFields_user_idem])
  · rcases hs : c.schema with _ | s
    · rw [withDatesC, hs] at h
      cases h
    · cases s <;> rw [withDatesC, hs] at h <;> cases h
      all_goals (rw [withDatesC]; simp [extendFields_dates_idem])

/-- C8, witness: on a fresh collection the enable-methods fail; after
`withSchema` they extend the schema and re-applying returns the same
collection state. -/
theorem c8_enable_methods_witness :
    withUserC ⟨"c", none, false, false⟩ = Except.error ()
  ∧ withDatesC ⟨"c", none, false, false⟩ = Except.error ()
  ∧ withUserC ⟨"c", some (Zod.zobject [("name", Zod.zstring)]), false, false⟩
      = Except.ok ⟨"c",
          some (Zod.zobject [("name", Zod.zstring), ("userId", Zod.zstrLen 17)]), true, false⟩
  ∧ withUserC ⟨"c",
        some (Zod.zobject [("name", Zod.zstring), ("userId", Zod.zstrLen 17)]), true, false⟩
      = Except.ok ⟨"c",
          some (Zod.zobject [("name", Zod.zstring), ("userId", Zod.zstrLen 17)]), true, false⟩ := by
  have h0 := c8_enable_methods ⟨"c", none, false, false⟩
  have h1 := c8_enable_methods ⟨"c", some (Zod.zobject [("name", Zod.zstring)]), false, false⟩
  have hu := (h1.2.1 [("name", Zod.zstring)] rfl).1
  refine ⟨(h0.1 rfl).1, (h0.1 rfl).2, hu, ?_⟩
  exact h1.2.2.1 _ hu

lemma interceptWrite_update (ctx : Ctx) (nm : String) (s : Zod) (sel m : JsVal)
    (hn : nm ≠ "users") :
    interceptWrite ctx "updateAsync" ⟨nm, some s, false, false⟩ [sel, m, JsVal.vobj []]
      = match processModifier s (deepOptional s) m with
        | Except.ok m2 => Outcome.forwarded [sel, m2, JsVal.vobj []]
        | Except.error e => pipeErrOutcome e := by
  have hb : (nm == "users") = false := by
    simp [hn]
  unfold interceptWrite
  simp only [List.getLast?, List.getLastD, getKey, lookupKv, truthyO, Option.bind, hb,
    Bool.and_false, Bool.false_and, Option.isSome]
  cases hp : processModifier s (deepOptional s) m <;>
    simp [hp, Except.map, pipeErrOutcome, truthyO, truthy, lookupKv]

lemma processModifier_single (s stc : Zod) (key : String) (operand : JsVal) :
    processModifier s stc (JsVal.vobj [(key, operand)])
      = (processOp s stc key operand).map (fun v2 => JsVal.vobj [(key, v2)]) := by
  rw [processModifier]
  simp only [jsObjectKeys, Except.mapError, Bind.bind, Except.bind, List.map]
  rw [processKeys]
  simp only [getKey, lookupKv, beq_self_eq_true, if_true, Option.getD, Bind.bind, Except.bind]
  cases hp : processOp s stc key operand with
  | error e => simp [hp, Except.map]
  | ok v2 => simp [hp, Except.map, processKeys, setKeyV, setKv]

lemma processOp_pop_single (s stc : Zod) (field : String) (v : JsVal) :
    processOp s stc "$pop" (JsVal.vobj [(field, v)])
      = (processPopField s "$pop" (JsVal.vobj [(field, v)]) field).map
          (fun _ => JsVal.vobj [(field, v)]) := by
  rw [processOp]
  rw [if_neg (by decide), if_pos (by decide)]
  simp only [jsObjectKeys, Except.mapError, Bind.bind, Except.bind, List.map, List.forM]
  cases hp : processPopField s "$pop" (JsVal.vobj [(field, v)]) field with
  | error e => simp [Except.map]
  | ok u => simp [Except.map, Pure.pure, Except.pure]

lemma processPopField_single (s : Zod) (field : String) (v : JsVal) :
    processPopField s "$pop" (JsVal.vobj [(field, v)]) field
      = match schemaFromPath s field with
        | Except.error _ => Except.error PipeErr.tyErr
        | Except.ok none => Except.error (PipeErr.valErr
            [⟨field, "invalid_field", field ++ " does not exist"⟩])
        | Except.ok (some fs2) =>
          match fs2 with
          | Zod.zarray _ =>
            match v with
            | JsVal.vnum n =>
              if n == 1 || n == -1 then Except.ok ()
              else Except.error (PipeErr.valErr
                [⟨"$pop", "invalid_array_pop_operation",
                  "$pop is not a valid array $pop operation. $pop value must be 1 or -1."⟩])
            | _ => Except.error (PipeErr.valErr
                [⟨"$pop", "invalid_array_pop_operation",
                  "$pop is not a valid array $pop operation. $pop value must be 1 or -1."⟩])
          | _ => Except.error (PipeErr.valErr
              [⟨field, "invalid_array_field", field ++ " is not a valid array"⟩]) := by
  rw [processPopField]
  rcases hsp : schemaFromPath s field with _ | fs2
  · simp [Except.mapError, Bind.bind, Except.bind]
  · rcases fs2 with _ | fs3
    · simp [Except.mapError, Bind.bind, Except.bind]
    · cases fs3 <;>
        simp [Except.mapError, Bind.bind, Except.bind, getKey, lookupKv, Pure.pure, Except.pure]

/-- C5, counterexample: `$pop` with operand `2` on array field `tags` raises
the `invalid_array_pop_operation` issue with `name` equal to the operator
key `"$pop"`, not the targeted field path `"tags"` as the claim states. -/
theorem c5_pop_issue_name_counterexample :
    interceptWrite ⟨none, 0⟩ "updateAsync"
      ⟨"c", some (Zod.zobject [("tags", Zod.zarray Zod.zstring)]), false, false⟩
      [JsVal.vstr "id", JsVal.vobj [("$pop", JsVal.vobj [("tags", JsVal.vnum 2)])],
        JsVal.vobj []]
    = Outcome.validationError
        [⟨"$pop", "invalid_array_pop_operation",
          "$pop is not a valid array $pop operation. $pop value must be 1 or -1."⟩]
  ∧ ("$pop" : String) ≠ "tags" :=
  ⟨rfl, by decide⟩

/-- C5, amended: a `$pop` on a plain update resolves the targeted field
(`invalid_field` when unresolved, `invalid_array_field` when resolved but
not array-typed, a raw JS error when resolution crashes) and requires the
operand to be exactly `1` or `-1`; any other operand raises a single
`invalid_array_pop_operation` issue whose `name` is the operator key
`"$pop"` itself rather than the targeted dotted field path. -/
theorem c5_pop_policy_amended (ctx : Ctx) (nm : String) (s : Zod) (sel v : JsVal)
    (field : String) (hn : nm ≠ "users") :
    interceptWrite ctx "updateAsync" ⟨nm, some s, false, false⟩
        [sel, JsVal.vobj [("$pop", JsVal.vobj [(field, v)])], JsVal.vobj []]
      = match schemaFromPath s field with
        | Except.error _ => Outcome.jsError
        | Except.ok none => Outcome.validationError
            [⟨field, "invalid_field", field ++ " does not exist"⟩]
        | Except.ok (some fs2) =>
          match fs2 with
          | Zod.zarray _ =>
            match v with
            | JsVal.vnum n =>
              if n == 1 || n == -1 then
                Outcome.forwarded
                  [sel, JsVal.vobj [("$pop", JsVal.vobj [(field, v)])], JsVal.vobj []]
              else
                Outcome.validationError
                  [⟨"$pop", "invalid_array_pop_operation",
                    "$pop is not a valid array $pop operation. $pop value must be 1 or -1."⟩]
            | _ =>
              Outcome.validationError
                [⟨"$pop", "invalid_array_pop_operation",
                  "$pop is not a valid array $pop operation. $pop value must be 1 or -1."⟩]
          | _ => Outcome.validationError
              [⟨field, "invalid_array_field", field ++ " is not a valid array"⟩] := by
  rw [interceptWrite_update ctx nm s sel _ hn, processModifier_single, processOp_pop_single,
    processPopField_single]
  rcases hsp : schemaFromPath s field with _ | fs2
  · simp [Except.map, pipeErrOutcome]
  · rcases fs2 with _ | fs3
    · simp [Except.map, pipeErrOutcome]
    · cases fs3 <;> simp [Except.map, pipeErrOutcome]
      case zarray e =>
      cases v <;> simp [Except.map, pipeErrOutcome]
      case vnum n =>
      by_cases hb : n = 1 ∨ n = -1 <;> simp [hb, Except.map, pipeErrOutcome]

/-- C5, witness: a well-formed `$pop` of `1` on an array field is forwarded
with the modifier untouched. -/
theorem c5_pop_policy_amended_witness :
    interceptWrite ⟨none, 0⟩ "updateAsync"
      ⟨"c", some (Zod.zobject [("tags", Zod.zarray Zod.zstring)]), false, false⟩
      [JsVal.vstr "id", JsVal.vobj [("$pop", JsVal.vobj [("tags", JsVal.vnum 1)])],
        JsVal.vobj []]
    = Outcome.forwarded
        [JsVal.vstr "id", JsVal.vobj [("$pop", JsVal.vobj [("tags", JsVal.vnum 1)])],
          JsVal.vobj []] :=
  (c5_pop_policy_amended ⟨none, 0⟩ "c" (Zod.zobject [("tags", Zod.zarray Zod.zstring)])
    (JsVal.vstr "id") (JsVal.vnum 1) "tags" (by decide)).trans rfl

lemma processOp_push_single (s stc : Zod) (key field : String) (v : JsVal)
    (hk : key = "$push" ∨ key = "$addToSet") :
    processOp s stc key (JsVal.vobj [(field, v)])
      = (processArrayField s (JsVal.vobj [(field, v)]) field).map
          (fun v2 => JsVal.vobj [(field, v2)]) := by
  have hcond : (key == "$push" || key == "$addToSet") = true := by
    rcases hk with h | h <;> simp [h]
  rw [processOp, if_pos hcond]
  simp only [jsObjectKeys, Except.mapError, Bind.bind, Except.bind, List.map, List.foldlM]
  cases hp : processArrayField s (JsVal.vobj [(field, v)]) field with
  | error e => simp [Except.map]
  | ok v2 => simp [Except.map, Pure.pure, Except.pure, setKeyV, setKv]

lemma processArrayField_single (s : Zod) (field : String) (v : JsVal) :
    processArrayField s (JsVal.vobj [(field, v)]) field
      = match schemaFromPath s field with
        | Except.error _ => Except.error PipeErr.tyErr
        | Except.ok none => Except.error (PipeErr.valErr
            [⟨field, "invalid_field", field ++ " does not exist"⟩])
        | Except.ok (some fs2) =>
          match fs2 with
          | Zod.zarray e =>
            if truthyO (getKey v "$each") then
              (parseZ (pushComposite (Zod.zarray e)) v).mapError PipeErr.zodErr
            else
              (parseZ e v).mapError PipeErr.zodErr
          | _ => Except.error (PipeErr.valErr
              [⟨field, "invalid_array_field", field ++ " is not a valid array"⟩]) := by
  rw [processArrayField]
  rcases hsp : schemaFromPath s field with _ | fs2
  · simp [Except.mapError, Bind.bind, Except.bind]
  · rcases fs2 with _ | fs3
    · simp [Except.mapError, Bind.bind, Except.bind]
    · cases fs3 <;>
        simp [Except.mapError, Bind.bind, Except.bind, getKey, lookupKv]

/-- C4, counterexample: the `$each` route is selected by the truthiness of
the operand's `$each` member, not by the presence of the `$each` key.  For
an array-of-empty-object field, the operand `{$each: 0}` does contain the
`$each` key, so per the claim it must be validated against the composite
shape — which rejects it, `0` not being an array.  The code instead
validates it against the element descriptor, which strips it to `{}` and
forwards the write. -/
theorem c4_each_truthiness_counterexample :
    (getKey (JsVal.vobj [("$each", JsVal.vnum 0)]) "$each").isSome = true
  ∧ interceptWrite ⟨none, 0⟩ "updateAsync"
      ⟨"c", some (Zod.zobject [("tags", Zod.zarray (Zod.zobject []))]), false, false⟩
      [JsVal.vstr "id",
        JsVal.vobj [("$push", JsVal.vobj [("tags", JsVal.vobj [("$each", JsVal.vnum 0)])])],
        JsVal.vobj []]
    = Outcome.forwarded
        [JsVal.vstr "id", JsVal.vobj [("$push", JsVal.vobj [("tags", JsVal.vobj [])])],
          JsVal.vobj []]
  ∧ parseZ (pushComposite (Zod.zarray (Zod.zobject [])))
      (JsVal.vobj [("$each", JsVal.vnum 0)])
    = Except.error [⟨["$each"], "invalid_type", "Expected array"⟩] := by
  refine ⟨rfl, ?_, ?_⟩
  · simp [interceptWrite, truthyO, truthy, getKey, lookupKv, firstKeyIsServices,
      jsObjectValues, jsObjectKeys, processModifier, processKeys, processOp, unsupportedOps,
      processArrayField, schemaFromPath, walkPath, lookupZ, splitOnDot, splitDotAux, dotChar,
      parseZ, parseFields, acceptsMissing, pathCons, setKeyV, setKv, pipeErrOutcome,
      List.foldlM, Except.instMonad, Except.bind, Except.map, Except.mapError, Bind.bind,
      Pure.pure, Except.pure, Functor.map]
  · simp [pushComposite, parseZ, parseFields, acceptsMissing, pathCons, lookupKv]

/-- C4, amended: a `$push`/`$addToSet` on a plain update resolves each
targeted field (`invalid_field` when unresolved, `invalid_array_field` when
not array-typed, a raw JS error when resolution crashes); when the operand's
`$each` member is truthy, the operand is validated against the composite
shape built from the resolved array schema (`$each` against the array,
`$position`/`$slice` against optional integers, `$sort` against `1`/`-1` or
a field-direction record); otherwise — including an operand whose `$each`
key holds a falsy value — the single operand is validated against the
element descriptor; the validated value replaces the operand in the
forwarded modifier, and a failed parse aborts the write with the mapped zod
issues. -/
theorem c4_push_policy_amended (ctx : Ctx) (nm : String) (s : Zod) (sel v : JsVal)
    (field key : String) (hn : nm ≠ "users") (hk : key = "$push" ∨ key = "$addToSet") :
    interceptWrite ctx "updateAsync" ⟨nm, some s, false, false⟩
        [sel, JsVal.vobj [(key, JsVal.vobj [(field, v)])], JsVal.vobj []]
      = match schemaFromPath s field with
        | Except.error _ => Outcome.jsError
        | Except.ok none => Outcome.validationError
            [⟨field, "invalid_field", field ++ " does not exist"⟩]
        | Except.ok (some fs2) =>
          match fs2 with
          | Zod.zarray e =>
            if truthyO (getKey v "$each") then
              match parseZ (pushComposite (Zod.zarray e)) v with
              | Except.ok v2 => Outcome.forwarded
                  [sel, JsVal.vobj [(key, JsVal.vobj [(field, v2)])], JsVal.vobj []]
              | Except.error is => Outcome.validationError (toVIssues is)
            else
              match parseZ e v with
              | Except.ok v2 => Outcome.forwarded
                  [sel, JsVal.vobj [(key, JsVal.vobj [(field, v2)])], JsVal.vobj []]
              | Except.error is => Outcome.validationError (toVIssues is)
          | _ => Outcome.validationError
              [⟨field, "invalid_array_field", field ++ " is not a valid array"⟩] := by
  rw [interceptWrite_update ctx nm s sel _ hn, processModifier_single,
    processOp_push_single s (deepOptional s) key field v hk, processArrayField_single]
  rcases hsp : schemaFromPath s field with _ | fs2
  · simp [Except.map, pipeErrOutcome]
  · rcases fs2 with _ | fs3
    · simp [Except.map, pipeErrOutcome]
    · cases fs3 <;> simp [Except.map, pipeErrOutcome]
      case zarray e =>
      cases ht : truthyO (getKey v "$each") <;>
        · cases hp : parseZ (pushComposite (Zod.zarray e)) v <;>
            cases hp2 : parseZ e v <;>
            simp [ht, hp, hp2, Except.map, Except.mapError, pipeErrOutcome]

/-- C4, witness: pushing a valid single element onto an array field is
forwarded with the element validated in place. -/
theorem c4_push_policy_amended_witness :
    interceptWrite ⟨none, 0⟩ "updateAsync"
      ⟨"c", some (Zod.zobject [("tags", Zod.zarray Zod.zstring)]), false, false⟩
      [JsVal.vstr "id", JsVal.vobj [("$push", JsVal.vobj [("tags", JsVal.vstr "t3")])],
        JsVal.vobj []]
    = Outcome.forwarded
        [JsVal.vstr "id", JsVal.vobj [("$push", JsVal.vobj [("tags", JsVal.vstr "t3")])],
          JsVal.vobj []] := by
  have h := c4_push_policy_amended ⟨none, 0⟩ "c"
    (Zod.zobject [("tags", Zod.zarray Zod.zstring)]) (JsVal.vstr "id") (JsVal.vstr "t3")
    "tags" "$push" (by decide) (Or.inl rfl)
  rw [h]
  simp [schemaFromPath, walkPath, lookupZ, splitOnDot, splitDotAux, dotChar, truthyO, getKey,
    parseZ]

lemma truthyO_isSome {o : Option JsVal} (h : truthyO o = true) : o.isSome = true := by
  cases o with
  | none => simp [truthyO] at h
  | some v => rfl

lemma interceptWrite_update_upsert (ctx : Ctx) (nm : String) (s : Zod) (sel m : JsVal)
    (okvs : List (String × JsVal)) (hn : nm ≠ "users")
    (hu : truthyO (lookupKv okvs "upsert") = true)
    (hs : truthyO (lookupKv okvs "skipSchema") = false) :
    interceptWrite ctx "updateAsync" ⟨nm, some s, false, false⟩ [sel, m, JsVal.vobj okvs]
      = match processUpsert s m with
        | Except.ok m2 => Outcome.forwarded [sel, m2, JsVal.vobj okvs]
        | Except.error e => pipeErrOutcome e := by
  have hb : (nm == "users") = false := by simp [hn]
  have h1 : truthyO ((List.getLast? [sel, m, JsVal.vobj okvs]).bind
      (fun o => getKey o "skipSchema")) = false := by
    simpa [List.getLast?, List.getLastD, getKey, Option.bind] using hs
  unfold interceptWrite
  simp only [h1, Bool.false_eq_true, if_false, List.get?, hb, Bool.and_false, Bool.false_and,
    truthyO_isSome hu, hu, Bool.and_self, Bool.true_and, Bool.and_true]
  cases hp : processUpsert s m <;> simp [hp, Except.map, pipeErrOutcome]

lemma interceptWrite_upsert_method (ctx : Ctx) (nm : String) (s : Zod) (wu wd : Bool)
    (args : List JsVal) :
    interceptWrite ctx "upsertAsync" ⟨nm, some s, wu, wd⟩ args = Outcome.forwarded args := by
  unfold interceptWrite
  cases h : truthyO (args.getLast?.bind fun o => getKey o "skipSchema") <;> simp [h]

lemma processUpsert_spec (s : Zod) (mkvs : List (String × JsVal)) (sel opts : JsVal) :
    (match processUpsert s (JsVal.vobj mkvs) with
     | Except.ok m2 => Outcome.forwarded [sel, m2, opts]
     | Except.error e => pipeErrOutcome e)
      = upsertDualSpec s sel (JsVal.vobj mkvs) opts := by
  simp only [processUpsert, upsertDualSpec]
  cases hset : truthyO (getKey (JsVal.vobj mkvs) "$set") with
  | false =>
    simp only [hset, Bool.false_eq_true, if_false, Bind.bind, Except.bind, Pure.pure,
      Except.pure]
    cases hsoi : truthyO (getKey (JsVal.vobj mkvs) "$setOnInsert") with
    | false => simp [hsoi]
    | true =>
      cases hp2 : parseZ (shallowOptional s) ((getKey (JsVal.vobj mkvs) "$setOnInsert").getD
          JsVal.vnull) with
      | error is => simp [hsoi, hp2, Except.map, Except.mapError, pipeErrOutcome]
      | ok v2 => simp [hsoi, hp2, Except.map, Except.mapError]
  | true =>
    simp only [hset, if_true, Bind.bind, Except.bind]
    cases hp1 : parseZ (deepOptional s) ((getKey (JsVal.vobj mkvs) "$set").getD JsVal.vnull) with
    | error is => simp [hp1, Except.map, Except.mapError, pipeErrOutcome]
    | ok v1 =>
      simp only [hp1, Except.map, Except.mapError]
      cases hsoi : truthyO (getKey (setKeyV (JsVal.vobj mkvs) "$set" v1) "$setOnInsert") with
      | false => simp [hsoi, Pure.pure, Except.pure]
      | true =>
        cases hp2 : parseZ (shallowOptional s)
            ((getKey (setKeyV (JsVal.vobj mkvs) "$set" v1) "$setOnInsert").getD JsVal.vnull) with
        | error is => simp [hsoi, hp2, Except.map, Except.mapError, pipeErrOutcome]
        | ok v2 => simp [hsoi, hp2, Except.map, Except.mapError]

/-- C1: an update carrying a truthy `upsert` option, and equally an upsert
issued through the upsert method (which the wrapper forwards to the
underlying primitive, itself expressed as an update carrying the upsert
option), validates the modifier's `$set` operand against the deep-partial
schema and its `$setOnInsert` operand against the partial schema and
nothing else; a violating operand surfaces as one aggregated validation
error and the write is not forwarded. -/
theorem c1_upsert_dual_mode (ctx : Ctx) (nm : String) (s : Zod) (sel : JsVal)
    (mkvs okvs : List (String × JsVal)) (hn : nm ≠ "users")
    (hu : truthyO (lookupKv okvs "upsert") = true)
    (hs : truthyO (lookupKv okvs "skipSchema") = false) :
    interceptWrite ctx "updateAsync" ⟨nm, some s, false, false⟩
        [sel, JsVal.vobj mkvs, JsVal.vobj okvs]
      = upsertDualSpec s sel (JsVal.vobj mkvs) (JsVal.vobj okvs)
  ∧ runUpsert ctx ⟨nm, some s, false, false⟩ [sel, JsVal.vobj mkvs]
      = upsertDualSpec s sel (JsVal.vobj mkvs)
          (JsVal.vobj [("_returnObject", JsVal.vbool true), ("upsert", JsVal.vbool true)]) := by
  constructor
  · rw [interceptWrite_update_upsert ctx nm s sel _ okvs hn hu hs, processUpsert_spec]
  · rw [runUpsert, interceptWrite_upsert_method]
    have hopts : JsVal.vobj
        (setKv (setKv [] "_returnObject" (JsVal.vbool true)) "upsert" (JsVal.vbool true))
        = JsVal.vobj [("_returnObject", JsVal.vbool true), ("upsert", JsVal.vbool true)] := rfl
    simp only [List.get?, Option.getD, hopts]
    rw [interceptWrite_update_upsert ctx nm s sel _ _ hn (by rfl) (by rfl), processUpsert_spec]


/-- C1, witness: the dual-mode characterization instantiated on a concrete
collection, modifier and options, with every hypothesis discharged. -/
theorem c1_upsert_dual_mode_witness :
    ("c" : String) ≠ "users"
  ∧ truthyO (lookupKv [("upsert", JsVal.vbool true)] "upsert") = true
  ∧ truthyO (lookupKv [("upsert", JsVal.vbool true)] "skipSchema") = false
  ∧ (interceptWrite ⟨none, 0⟩ "updateAsync"
        ⟨"c", some (Zod.zobject [("name", Zod.zstring), ("count", Zod.znumber)]), false, false⟩
        [JsVal.vstr "id",
          JsVal.vobj [("$set", JsVal.vobj [("name", JsVal.vstr "J")]),
            ("$setOnInsert", JsVal.vobj [("count", JsVal.vnum 1)])],
          JsVal.vobj [("upsert", JsVal.vbool true)]]
      = upsertDualSpec (Zod.zobject [("name", Zod.zstring), ("count", Zod.znumber)])
          (JsVal.vstr "id")
          (JsVal.vobj [("$set", JsVal.vobj [("name", JsVal.vstr "J")]),
            ("$setOnInsert", JsVal.vobj [("count", JsVal.vnum 1)])])
          (JsVal.vobj [("upsert", JsVal.vbool true)])
    ∧ runUpsert ⟨none, 0⟩
        ⟨"c", some (Zod.zobject [("name", Zod.zstring), ("count", Zod.znumber)]), false, false⟩
        [JsVal.vstr "id",
          JsVal.vobj [("$set", JsVal.vobj [("name", JsVal.vstr "J")]),
            ("$setOnInsert", JsVal.vobj [("count", JsVal.vnum 1)])]]
      = upsertDualSpec (Zod.zobject [("name", Zod.zstring), ("count", Zod.znumber)])
          (JsVal.vstr "id")
          (JsVal.vobj [("$set", JsVal.vobj [("name", JsVal.vstr "J")]),
            ("$setOnInsert", JsVal.vobj [("count", JsVal.vnum 1)])])
          (JsVal.vobj [("_returnObject", JsVal.vbool true), ("upsert", JsVal.vbool true)])) :=
  ⟨by decide, rfl, rfl,
    c1_upsert_dual_mode ⟨none, 0⟩ "c"
      (Zod.zobject [("name", Zod.zstring), ("count", Zod.znumber)]) (JsVal.vstr "id")
      [("$set", JsVal.vobj [("name", JsVal.vstr "J")]),
        ("$setOnInsert", JsVal.vobj [("count", JsVal.vnum 1)])]
      [("upsert", JsVal.vbool true)] (by decide) rfl rfl⟩

lemma lookupKv_append_cons_self {pre rest : List (String × JsVal)} {k : String} {v : JsVal}
    (h : k ∉ pre.map Prod.fst) :
    lookupKv (pre ++ (k, v) :: rest) k = some v := by
  rw [lookupKv_append_left_none h]
  simp [lookupKv]

lemma setKv_append_cons_self {pre rest : List (String × JsVal)} {k : String} {v v2 : JsVal}
    (h : k ∉ pre.map Prod.fst) :
    setKv (pre ++ (k, v) :: rest) k v2 = pre ++ (k, v2) :: rest := by
  rw [setKv_append_left h]
  simp [setKv]

lemma processKeys_opsMapM (s stc : Zod) :
    ∀ (mods pre : List (String × JsVal)),
      (mods.map Prod.fst).Nodup →
      (∀ k ∈ mods.map Prod.fst, k ∉ pre.map Prod.fst) →
      processKeys s stc (mods.map Prod.fst) (JsVal.vobj (pre ++ mods))
        = (opsMapM s stc mods).map (fun mods2 => JsVal.vobj (pre ++ mods2)) := by
  intro mods
  induction mods with
  | nil =>
    intro pre _ _
    simp [processKeys, opsMapM, Except.map]
  | cons kv rest ih =>
    intro pre hnd hdisj
    rcases kv with ⟨k, v⟩
    have hkpre : k ∉ pre.map Prod.fst := hdisj k (by simp)
    have hget : getKey (JsVal.vobj (pre ++ (k, v) :: rest)) k = some v := by
      simp [getKey, lookupKv_append_cons_self hkpre]
    rw [List.map_cons, processKeys, hget, opsMapM]
    simp only [Option.getD, Bind.bind, Except.bind]
    cases hp : processOp s stc k v with
    | error e => simp [Except.map]
    | ok v2 =>
      have hset : setKeyV (JsVal.vobj (pre ++ (k, v) :: rest)) k v2
          = JsVal.vobj ((pre ++ [(k, v2)]) ++ rest) := by
        simp [setKeyV, setKv_append_cons_self hkpre]
      have hnd1 : (k :: rest.map Prod.fst).Nodup := by simpa using hnd
      have hknotrest : k ∉ rest.map Prod.fst := (List.nodup_cons.mp hnd1).1
      have hnd2 : (rest.map Prod.fst).Nodup := (List.nodup_cons.mp hnd1).2
      have hdisj2 : ∀ k2 ∈ rest.map Prod.fst, k2 ∉ (pre ++ [(k, v2)]).map Prod.fst := by
        intro k2 hk2
        simp only [List.map_append, List.mem_append, List.map_cons, List.map_nil,
          List.mem_singleton]
        rintro (h2 | h2)
        · exact hdisj k2 (by simp [hk2]) h2
        · exact hknotrest (h2 ▸ hk2)
      simp only [hset]
      rw [ih (pre ++ [(k, v2)]) hnd2 hdisj2]
      cases hm : opsMapM s stc rest with
      | error e => simp [Except.map]
      | ok rest2 => simp [Except.map]

/-- C2, counterexample: a write whose modifier carries two violating
operators raises one aggregated error containing only the first operator's
issue: the `$pop` on a non-array field aborts the loop, and the `$set`
operand — itself invalid against the deep-partial schema, as the second
conjunct shows — contributes no issue, contrary to the claimed aggregation
across operator keys. -/
theorem c2_cross_operator_counterexample :
    interceptWrite ⟨none, 0⟩ "updateAsync"
      ⟨"c", some (Zod.zobject [("name", Zod.zstring), ("tags", Zod.zarray Zod.zstring)]),
        false, false⟩
      [JsVal.vstr "id",
        JsVal.vobj [("$pop", JsVal.vobj [("name", JsVal.vnum 1)]),
          ("$set", JsVal.vobj [("name", JsVal.vnum 5)])],
        JsVal.vobj []]
    = Outcome.validationError
        [⟨"name", "invalid_array_field", "name is not a valid array"⟩]
  ∧ parseZ
      (deepOptional (Zod.zobject [("name", Zod.zstring), ("tags", Zod.zarray Zod.zstring)]))
      (JsVal.vobj [("name", JsVal.vnum 5)])
    = Except.error [⟨["name"], "invalid_type", "Expected string"⟩] := by
  refine ⟨rfl, ?_⟩
  simp [deepOptional, deepOptionalFields, parseZ, parseFields, acceptsMissing, pathCons,
    lookupKv]

/-- C2, amended: the per-operator loop of a plain update validates each
top-level operator key independently, in modifier key order, and stops at
the first failing operator: the single aggregated error carries exactly that
operator's issues (one zod parse collects all issues of that parse, and the
nested-field pass of one operator collects all of that operator's dotted
field issues), never issues from later operator keys; the underlying write
is invoked, with every operand rewritten in place, exactly when no operator
failed. -/
theorem c2_first_failing_operator (ctx : Ctx) (nm : String) (s : Zod) (sel : JsVal)
    (mods : List (String × JsVal)) (hn : nm ≠ "users")
    (hnd : (mods.map Prod.fst).Nodup) :
    interceptWrite ctx "updateAsync" ⟨nm, some s, false, false⟩
        [sel, JsVal.vobj mods, JsVal.vobj []]
      = match opsMapM s (deepOptional s) mods with
        | Except.ok mods2 => Outcome.forwarded [sel, JsVal.vobj mods2, JsVal.vobj []]
        | Except.error e => pipeErrOutcome e := by
  rw [interceptWrite_update ctx nm s sel _ hn, processModifier]
  simp only [jsObjectKeys, Except.mapError, Bind.bind, Except.bind]
  rw [show (JsVal.vobj mods) = JsVal.vobj ([] ++ mods) from rfl] at *
  rw [processKeys_opsMapM s (deepOptional s) mods [] hnd (by simp)]
  cases hm : opsMapM s (deepOptional s) mods <;> simp [Except.map]

/-- C2, witness: a modifier with two distinct valid operators is forwarded,
matching the independent per-operator composition. -/
theorem c2_first_failing_operator_witness :
    ("c" : String) ≠ "users"
  ∧ (([("$pop", JsVal.vobj [("tags", JsVal.vnum 1)]),
        ("$set", JsVal.vobj [("name", JsVal.vstr "J")])].map
          (Prod.fst (α := String) (β := JsVal))).Nodup)
  ∧ interceptWrite ⟨none, 0⟩ "updateAsync"
      ⟨"c", some (Zod.zobject [("name", Zod.zstring), ("tags", Zod.zarray Zod.zstring)]),
        false, false⟩
      [JsVal.vstr "id",
        JsVal.vobj [("$pop", JsVal.vobj [("tags", JsVal.vnum 1)]),
          ("$set", JsVal.vobj [("name", JsVal.vstr "J")])],
        JsVal.vobj []]
    = match opsMapM (Zod.zobject [("name", Zod.zstring), ("tags", Zod.zarray Zod.zstring)])
        (deepOptional (Zod.zobject [("name", Zod.zstring), ("tags", Zod.zarray Zod.zstring)]))
        [("$pop", JsVal.vobj [("tags", JsVal.vnum 1)]),
          ("$set", JsVal.vobj [("name", JsVal.vstr "J")])] with
      | Except.ok mods2 => Outcome.forwarded [JsVal.vstr "id", JsVal.vobj mods2, JsVal.vobj []]
      | Except.error e => pipeErrOutcome e :=
  ⟨by decide, by decide,
    c2_first_failing_operator ⟨none, 0⟩ "c"
      (Zod.zobject [("name", Zod.zstring), ("tags", Zod.zarray Zod.zstring)])
      (JsVal.vstr "id")
      [("$pop", JsVal.vobj [("tags", JsVal.vnum 1)]),
        ("$set", JsVal.vobj [("name", JsVal.vstr "J")])]
      (by decide) (by decide)⟩
